import Mathlib

/-!
Verification development for the multi-task training runner family
(`jiant/proj/main/runner.py`): a shallow embedding of `TrainState`, the base
runner's training-step loop, the evaluation loss accumulator, and the
step algorithms of the DDS, MultiDDS and Reptile runner variants,
together with theorems about the specified behaviour.

Python dictionaries with `String` keys are embedded as association lists.
Scalar tensor values (losses, gradients, weights) are embedded as rationals.
Machine floating point is abstracted to exact rational arithmetic; the claims
verified here are about control flow, counters and which arithmetic expression
is computed, not about rounding.
-/

namespace Jiant

/-- Association-list lookup, mirroring Python dict read `d[k]`
(`none` models a `KeyError`). -/
def lookupTask : List (String × Nat) → String → Option Nat
  | [], _ => none
  | (k, v) :: rest, name => if k = name then some v else lookupTask rest name

/-- Association-list update of an existing key, mirroring Python dict write
`d[k] = v` for a key already present. -/
def updateTask : List (String × Nat) → String → Nat → List (String × Nat)
  | [], _, _ => []
  | (k, v) :: rest, name, newv =>
      if k = name then (k, newv) :: rest else (k, v) :: updateTask rest name newv

/-- Structure `TrainState` from `runner.py`: the global step counter and the per-task
step counters. -/
structure TrainState where
  global_steps : Nat
  task_steps : List (String × Nat)
  deriving Repr, DecidableEq

/-- Classmethod `TrainState.from_task_name_list`: zero-initialised counters over exactly
the given task names. -/
def TrainState.from_task_name_list (task_name_list : List String) : TrainState :=
  { global_steps := 0,
    task_steps := task_name_list.map (fun n => (n, 0)) }

/-- Method `TrainState.step`: `task_steps[task_name] += 1; global_steps += 1`.
The Python read `self.task_steps[task_name]` raises `KeyError` when the name
is not tracked, before either counter changes; `none` models that failure. -/
def TrainState.step (s : TrainState) (task_name : String) : Option TrainState :=
  match lookupTask s.task_steps task_name with
  | none => none
  | some v =>
      some { global_steps := s.global_steps + 1,
             task_steps := updateTask s.task_steps task_name (v + 1) }

/-- Whether a task name has an entry in the state's counters. -/
def TrainState.tracked (s : TrainState) (t : String) : Bool :=
  (lookupTask s.task_steps t).isSome

/-- Performs `n` consecutive training-step advances starting at sampler position `pos`:
each advance calls the step algorithm once, which ends in
`train_state.step(task_name)` on the task the sampler drew. -/
def runSteps (sampler : Nat → String) : Nat → Nat → TrainState → Option TrainState
  | _, 0, s => some s
  | pos, Nat.succ n, s =>
      match s.step (sampler pos) with
      | none => none
      | some s1 => runSteps sampler (pos + 1) n s1

/-- Generator `JiantRunner.run_train_context` advanced to exhaustion: builds a fresh
`TrainState` over the train task list and performs `max_steps` training
steps (`range(max_steps)`), yielding the state after each. -/
def run_train_context (sampler : Nat → String) (train_task_list : List String)
    (max_steps : Nat) : Option TrainState :=
  runSteps sampler 0 max_steps (TrainState.from_task_name_list train_task_list)

/-- Generator `JiantRunner.resume_train_context` advanced to exhaustion: starts the
loop counter at `train_state.global_steps` (`range(start, max_steps)`,
which has `max_steps - start` iterations) and performs one training step
per iteration on the restored state. -/
def resume_train_context (sampler : Nat → String) (max_steps : Nat)
    (train_state : TrainState) : Option TrainState :=
  runSteps sampler train_state.global_steps
    (max_steps - train_state.global_steps) train_state

theorem lookupTask_updateTask_self (l : List (String × Nat)) (k : String) (v : Nat) :
    (lookupTask l k).isSome → lookupTask (updateTask l k v) k = some v := by
  induction l with
  | nil => simp [lookupTask]
  | cons hd tl ih =>
      intro h
      by_cases hk : hd.1 = k
      · simp [updateTask, hk, lookupTask]
      · simp [updateTask, hk, lookupTask] at h ⊢
        exact ih h

theorem lookupTask_updateTask_other (l : List (String × Nat)) (k u : String) (v : Nat)
    (hne : u ≠ k) : lookupTask (updateTask l k v) u = lookupTask l u := by
  induction l with
  | nil => simp [updateTask]
  | cons hd tl ih =>
      obtain ⟨a, b⟩ := hd
      have hku : ¬ k = u := fun h => hne h.symm
      by_cases hk : a = k
      · subst hk
        simp [updateTask, lookupTask, hku]
      · by_cases hu : a = u
        · subst hu
          simp [updateTask, hk, lookupTask]
        · simp [updateTask, hk, lookupTask, hu, ih]

theorem lookupTask_updateTask_isSome (l : List (String × Nat)) (k u : String) (v : Nat) :
    (lookupTask (updateTask l k v) u).isSome = (lookupTask l u).isSome := by
  induction l with
  | nil => simp [updateTask]
  | cons hd tl ih =>
      obtain ⟨a, b⟩ := hd
      by_cases hk : a = k
      · subst hk
        by_cases hu : a = u
        · subst hu
          simp [updateTask, lookupTask]
        · simp [updateTask, lookupTask, hu]
      · by_cases hu : a = u
        · subst hu
          simp [updateTask, hk, lookupTask]
        · simp [updateTask, hk, lookupTask, hu, ih]

/-- A successful `step` preserves which tasks are tracked. -/
theorem TrainState.step_tracked (s s' : TrainState) (t u : String)
    (h : s.step t = some s') : s'.tracked u = s.tracked u := by
  unfold TrainState.step at h
  cases hl : lookupTask s.task_steps t with
  | none => rw [hl] at h; exact absurd h (by simp)
  | some v =>
      rw [hl] at h
      cases h
      simp only [TrainState.tracked]
      exact lookupTask_updateTask_isSome _ _ _ _

/-- A successful `step` increments `global_steps` by one. -/
theorem TrainState.step_global (s s' : TrainState) (t : String)
    (h : s.step t = some s') : s'.global_steps = s.global_steps + 1 := by
  unfold TrainState.step at h
  cases hl : lookupTask s.task_steps t with
  | none => rw [hl] at h; exact absurd h (by simp)
  | some v => rw [hl] at h; cases h; rfl

/-- A tracked task's `step` succeeds and increments exactly its own counter. -/
theorem TrainState.step_tracked_spec (s : TrainState) (t : String)
    (h : s.tracked t = true) :
    ∃ v s', lookupTask s.task_steps t = some v ∧ s.step t = some s' ∧
      s'.global_steps = s.global_steps + 1 ∧
      lookupTask s'.task_steps t = some (v + 1) ∧
      ∀ u, u ≠ t → lookupTask s'.task_steps u = lookupTask s.task_steps u := by
  simp only [TrainState.tracked, Option.isSome_iff_exists] at h
  obtain ⟨v, hv⟩ := h
  refine ⟨v, { global_steps := s.global_steps + 1,
               task_steps := updateTask s.task_steps t (v + 1) },
    hv, ?_, rfl, ?_, ?_⟩
  · simp [TrainState.step, hv]
  · exact lookupTask_updateTask_self _ _ _ (by simp [hv])
  · intro u hu
    exact lookupTask_updateTask_other _ _ _ _ hu

/-- An untracked task's `step` fails (Python `KeyError`). -/
theorem TrainState.step_untracked (s : TrainState) (t : String)
    (h : s.tracked t = false) : s.step t = none := by
  have hnone : lookupTask s.task_steps t = none := by
    cases hl : lookupTask s.task_steps t with
    | none => rfl
    | some v =>
        rw [TrainState.tracked, hl] at h
        simp at h
  simp [TrainState.step, hnone]

/-- A single `step` never decreases any per-task counter. -/
theorem TrainState.step_mono (s s' : TrainState) (t u : String) (v : Nat)
    (h : s.step t = some s') (hu : lookupTask s.task_steps u = some v) :
    ∃ v', lookupTask s'.task_steps u = some v' ∧ v ≤ v' := by
  by_cases hut : u = t
  · subst hut
    obtain ⟨w, s'', hw, hstep, _, hlook, _⟩ :=
      TrainState.step_tracked_spec s u (by simp [TrainState.tracked, hu])
    rw [hstep] at h
    cases h
    rw [hw] at hu
    cases hu
    exact ⟨v + 1, hlook, Nat.le_succ v⟩
  · obtain ⟨w, s'', hw, hstep, _, _, hother⟩ :=
      TrainState.step_tracked_spec s t (by
        unfold TrainState.step at h
        cases hl : lookupTask s.task_steps t with
        | none => rw [hl] at h; exact absurd h (by simp)
        | some _ => simp [TrainState.tracked, hl])
    rw [hstep] at h
    cases h
    rw [hother u hut]
    exact ⟨v, hu, le_refl v⟩

/-- Lemma: `runSteps` succeeds and adds `n` to `global_steps` when every task the
sampler draws in the window is tracked. -/
theorem runSteps_global (sampler : Nat → String) (pos n : Nat) (s : TrainState)
    (h : ∀ i, pos ≤ i → i < pos + n → s.tracked (sampler i) = true) :
    ∃ s', runSteps sampler pos n s = some s' ∧
      s'.global_steps = s.global_steps + n := by
  induction n generalizing pos s with
  | zero => exact ⟨s, rfl, rfl⟩
  | succ n ih =>
      have hpos : s.tracked (sampler pos) = true :=
        h pos (le_refl pos) (by omega)
      obtain ⟨v, s1, _, hstep, hg, _, _⟩ := TrainState.step_tracked_spec s _ hpos
      have h1 : ∀ i, pos + 1 ≤ i → i < pos + 1 + n → s1.tracked (sampler i) = true := by
        intro i h1i h2i
        rw [TrainState.step_tracked s s1 _ _ hstep]
        exact h i (by omega) (by omega)
      obtain ⟨s', hrun, hg'⟩ := ih (pos + 1) s1 h1
      refine ⟨s', ?_, ?_⟩
      · simp only [runSteps, hstep]
        exact hrun
      · omega

/-- Lemma: `runSteps` never decreases any per-task counter, between any two points
of the run. -/
theorem runSteps_mono (sampler : Nat → String) (pos n : Nat) (s s' : TrainState)
    (h : runSteps sampler pos n s = some s') :
    ∀ u v, lookupTask s.task_steps u = some v →
      ∃ v', lookupTask s'.task_steps u = some v' ∧ v ≤ v' := by
  induction n generalizing pos s with
  | zero =>
      simp only [runSteps] at h
      cases h
      exact fun u v hv => ⟨v, hv, le_refl v⟩
  | succ n ih =>
      simp only [runSteps] at h
      cases hstep : s.step (sampler pos) with
      | none => rw [hstep] at h; exact absurd h (by simp)
      | some s1 =>
          rw [hstep] at h
          intro u v hv
          obtain ⟨v1, hv1, hle1⟩ := TrainState.step_mono s s1 _ u v hstep hv
          obtain ⟨v', hv', hle'⟩ := ih (pos + 1) s1 h u v1 hv1
          exact ⟨v', hv', le_trans hle1 hle'⟩

/-- Lemma: `from_task_name_list` tracks exactly the given names, all at zero. -/
theorem from_task_name_list_tracked (T : List String) (t : String) :
    (TrainState.from_task_name_list T).tracked t = true ↔ t ∈ T := by
  induction T with
  | nil => simp [TrainState.from_task_name_list, TrainState.tracked, lookupTask]
  | cons hd tl ih =>
      simp only [TrainState.from_task_name_list, TrainState.tracked, List.map,
        lookupTask] at ih ⊢
      by_cases hhd : hd = t
      · simp [hhd]
      · simp only [hhd, if_false, List.mem_cons]
        rw [ih]
        constructor
        · exact Or.inr
        · rintro (h | h)
          · exact absurd h.symm hhd
          · exact h

/-- C1: on a `TrainState` created by `from_task_name_list` over `T`,
`step t` for tracked `t` increments `task_steps[t]` and `global_steps` by
exactly one and touches no other counter; `step t` for untracked `t` fails;
advancing `run_train_context` `N` times (for `N` within the configured
`max_steps`, with every sampled task in `T`) yields `global_steps = N`; and
no per-task counter ever decreases across any segment of the run. -/
theorem trainState_step_and_run_context_spec
    (T : List String) (sampler : Nat → String) (N max_steps : Nat)
    (hN : N ≤ max_steps)
    (hsam : ∀ i, i < N → sampler i ∈ T) :
    (∀ s : TrainState, ∀ t ∈ T,
      s.tracked t = true →
      ∃ v s', lookupTask s.task_steps t = some v ∧ s.step t = some s' ∧
        s'.global_steps = s.global_steps + 1 ∧
        lookupTask s'.task_steps t = some (v + 1) ∧
        ∀ u, u ≠ t → lookupTask s'.task_steps u = lookupTask s.task_steps u) ∧
    (∀ s : TrainState, ∀ t, s.tracked t = false → s.step t = none) ∧
    (∃ s', runSteps sampler 0 N (TrainState.from_task_name_list T) = some s' ∧
      s'.global_steps = N) ∧
    (∀ pos n s s', runSteps sampler pos n s = some s' →
      ∀ u v, lookupTask s.task_steps u = some v →
        ∃ v', lookupTask s'.task_steps u = some v' ∧ v ≤ v') := by
  refine ⟨?_, ?_, ?_, ?_⟩
  · intro s t _ ht
    exact TrainState.step_tracked_spec s t ht
  · intro s t ht
    exact TrainState.step_untracked s t ht
  · have h : ∀ i, 0 ≤ i → i < 0 + N →
        (TrainState.from_task_name_list T).tracked (sampler i) = true := by
      intro i _ hi
      rw [from_task_name_list_tracked]
      exact hsam i (by omega)
    obtain ⟨s', hrun, hg⟩ := runSteps_global sampler 0 N _ h
    exact ⟨s', hrun, by simpa [TrainState.from_task_name_list] using hg⟩
  · intro pos n s s' h
    exact runSteps_mono sampler pos n s s' h

/-- Witness for C1 at `T = ["mnli", "rte"]`, a constant sampler and `N = 3`. -/
theorem trainState_step_and_run_context_spec_witness :
    (3 ≤ 5 ∧ ∀ i, i < 3 → (fun _ => "mnli") i ∈ ["mnli", "rte"]) ∧
    (∃ s', runSteps (fun _ => "mnli") 0 3
        (TrainState.from_task_name_list ["mnli", "rte"]) = some s' ∧
      s'.global_steps = 3) := by
  have h1 : (3 : Nat) ≤ 5 := by decide
  have h2 : ∀ i, i < 3 → (fun _ => "mnli") i ∈ ["mnli", "rte"] := by
    intro i _
    simp
  have h := trainState_step_and_run_context_spec ["mnli", "rte"]
    (fun _ => "mnli") 3 5 h1 h2
  exact ⟨⟨h1, h2⟩, h.2.2.1⟩

/-- C3: for a restored `TrainState` with `global_steps = k` and
`max_steps ≥ k`, `resume_train_context` performs exactly `max_steps - k`
further training steps and ends with `global_steps = max_steps` — the same
final step count an uninterrupted `run_train_context` reaches (the two runs
may draw different task identities, hence separate samplers). -/
theorem resume_train_context_reaches_max_steps
    (sampler sampler0 : Nat → String) (T : List String)
    (max_steps k : Nat) (ts : TrainState)
    (hk : ts.global_steps = k) (hkm : k ≤ max_steps)
    (hres : ∀ i, ts.tracked (sampler i) = true)
    (hfull : ∀ i, sampler0 i ∈ T) :
    (∃ s', resume_train_context sampler max_steps ts = some s' ∧
      s'.global_steps = k + (max_steps - k) ∧ s'.global_steps = max_steps) ∧
    (∃ s0, run_train_context sampler0 T max_steps = some s0 ∧
      s0.global_steps = max_steps) := by
  constructor
  · obtain ⟨s', hrun, hg⟩ := runSteps_global sampler ts.global_steps
      (max_steps - ts.global_steps) ts (fun i _ _ => hres i)
    exact ⟨s', hrun, by omega, by omega⟩
  · have h : ∀ i, 0 ≤ i → i < 0 + max_steps →
        (TrainState.from_task_name_list T).tracked (sampler0 i) = true :=
      fun i _ _ => (from_task_name_list_tracked T _).mpr (hfull i)
    obtain ⟨s0, hrun, hg⟩ := runSteps_global sampler0 0 max_steps _ h
    exact ⟨s0, hrun, by simpa [TrainState.from_task_name_list] using hg⟩

/-- Witness for C3: resume from `global_steps = 2` with `max_steps = 4`. -/
theorem resume_train_context_reaches_max_steps_witness :
    (∃ s', resume_train_context (fun _ => "rte") 4
        (TrainState.mk 2 [("mnli", 1), ("rte", 1)]) = some s' ∧
      s'.global_steps = 2 + (4 - 2) ∧ s'.global_steps = 4) ∧
    (∃ s0, run_train_context (fun _ => "rte") ["mnli", "rte"] 4 = some s0 ∧
      s0.global_steps = 4) :=
  resume_train_context_reaches_max_steps (fun _ => "rte") (fun _ => "rte")
    ["mnli", "rte"] 4 2 (TrainState.mk 2 [("mnli", 1), ("rte", 1)])
    rfl (by decide) (fun _ => rfl) (fun _ => by simp)

/-- Observable actions of one training step, in program order: sampler pop,
batch pull from a task's infinite stream, a `complex_backpropagate` call on a
raw loss, optimizer step, gradient clear, shared-gradient snapshot,
gradient-similarity computation, DDS-optimizer step, sampler update, the
Reptile inner-loop lifecycle calls, and the two kinds of log records. -/
inductive Event where
  | samplePop (task_name : String)
  | pullBatch (task_name : String) (index : Nat)
  | backprop (raw_loss : Rat)
  | optStep
  | zeroGrad
  | sharedGrad
  | gradSim
  | ddsOptStep
  | samplerUpdate
  | innerBegin
  | innerStep
  | innerEnd
  | logLossTrain (task_name : String) (task_step : Nat) (global_step : Nat) (loss_val : Rat)
  | logDDSDetails (task_name : String) (global_steps : Nat)
  deriving Repr, DecidableEq

def isSamplePopEv : Event → Bool
  | Event.samplePop _ => true
  | _ => false

def isPullEv : Event → Bool
  | Event.pullBatch _ _ => true
  | _ => false

def isBackpropEv : Event → Bool
  | Event.backprop _ => true
  | _ => false

def isOptStepEv : Event → Bool
  | Event.optStep => true
  | _ => false

def isZeroGradEv : Event → Bool
  | Event.zeroGrad => true
  | _ => false

def isLogLossEv : Event → Bool
  | Event.logLossTrain _ _ _ _ => true
  | _ => false

def isDDSLogEv : Event → Bool
  | Event.logDDSDetails _ _ => true
  | _ => false

def isInnerStepEv : Event → Bool
  | Event.innerStep => true
  | _ => false

/-- The gradient-accumulation micro-batch loop of `JiantRunner.run_train_step`:
for each of `n` micro-batches, pull a batch from `task_name`'s stream (batch
`pos` carries mean loss `losses pos`), run forward + loss, and call
`complex_backpropagate`. `cbp` abstracts `complex_backpropagate` (an external
collaborator that scales the loss for accumulation, backpropagates, and
returns the value accumulated into `loss_val`); `g` is the configured
`gradient_accumulation_steps` passed to it. Returns the emitted events and
the accumulated `loss_val`. -/
def microBatchLoop (cbp : Rat → Nat → Rat) (task_name : String)
    (losses : Nat → Rat) (g : Nat) : Nat → Nat → List Event × Rat
  | _, 0 => ([], 0)
  | pos, Nat.succ n =>
      let rest := microBatchLoop cbp task_name losses g (pos + 1) n
      (Event.pullBatch task_name pos :: Event.backprop (losses pos) :: rest.1,
       cbp (losses pos) g + rest.2)

/-- Method `JiantRunner.run_train_step`: sample one task, run the micro-batch loop
for its `gradient_accumulation_steps`, apply one optimizer step and clear
gradients, advance the `TrainState`, and emit one `loss_train` log record
with the task name, that task's step counter, the global step, and
`loss_val / gradient_accumulation_steps`. `none` models the `KeyError` crash
on an untracked task name. -/
def run_train_step (cbp : Rat → Nat → Rat) (task_name : String) (g : Nat)
    (losses : Nat → Rat) (pos : Nat) (ts : TrainState) :
    Option (List Event × TrainState) :=
  match ts.step task_name with
  | none => none
  | some ts' =>
      let mb := microBatchLoop cbp task_name losses g pos g
      some (Event.samplePop task_name :: mb.1 ++
        [Event.optStep, Event.zeroGrad,
         Event.logLossTrain task_name ((lookupTask ts'.task_steps task_name).getD 0)
           ts'.global_steps (mb.2 / (g : Rat))],
        ts')

theorem microBatchLoop_shape (cbp : Rat → Nat → Rat) (task_name : String)
    (losses : Nat → Rat) (g pos n : Nat) :
    ((microBatchLoop cbp task_name losses g pos n).1.countP isPullEv = n) ∧
    ((microBatchLoop cbp task_name losses g pos n).1.countP isBackpropEv = n) ∧
    (∀ e ∈ (microBatchLoop cbp task_name losses g pos n).1,
      isPullEv e = true ∨ isBackpropEv e = true) ∧
    (∀ i, i < n → Event.pullBatch task_name (pos + i) ∈
      (microBatchLoop cbp task_name losses g pos n).1) := by
  induction n generalizing pos with
  | zero => simp [microBatchLoop]
  | succ n ih =>
      obtain ⟨ihp, ihb, ihe, ihm⟩ := ih (pos + 1)
      refine ⟨?_, ?_, ?_, ?_⟩
      · simp [microBatchLoop, List.countP_cons, isPullEv, isBackpropEv, ihp]
      · simp [microBatchLoop, List.countP_cons, isPullEv, isBackpropEv, ihb]
      · intro e he
        simp only [microBatchLoop, List.mem_cons] at he
        rcases he with h | h | h
        · exact Or.inl (by rw [h]; rfl)
        · exact Or.inr (by rw [h]; rfl)
        · exact ihe e h
      · intro i hi
        cases i with
        | zero => simp [microBatchLoop]
        | succ i =>
            have := ihm i (by omega)
            simp only [microBatchLoop, List.mem_cons]
            right
            right
            have harith : pos + 1 + i = pos + (i + 1) := by omega
            rw [harith] at this
            exact this

theorem microBatchLoop_sum (cbp : Rat → Nat → Rat) (task_name : String)
    (losses : Nat → Rat) (g pos n : Nat) :
    (microBatchLoop cbp task_name losses g pos n).2 =
      Finset.sum (Finset.range n) (fun i => cbp (losses (pos + i)) g) := by
  induction n generalizing pos with
  | zero => simp [microBatchLoop]
  | succ n ih =>
      rw [Finset.sum_range_succ']
      simp only [microBatchLoop, ih (pos + 1)]
      have harith : ∀ i, pos + 1 + i = pos + (i + 1) := by omega
      simp only [harith, add_zero]
      ring

theorem microBatchLoop_countP_zero (cbp : Rat → Nat → Rat) (task_name : String)
    (losses : Nat → Rat) (g pos n : Nat) (p : Event → Bool)
    (hpull : ∀ t i, p (Event.pullBatch t i) = false)
    (hbp : ∀ q, p (Event.backprop q) = false) :
    (microBatchLoop cbp task_name losses g pos n).1.countP p = 0 := by
  induction n generalizing pos with
  | zero => simp [microBatchLoop]
  | succ n ih => simp [microBatchLoop, List.countP_cons, hpull, hbp, ih]

/-- C2: one call to the base runner's `run_train_step` samples exactly one
task, pulls exactly `gradient_accumulation_steps` consecutive batches from
that task's stream, passes each through `complex_backpropagate` exactly once,
applies exactly one optimizer step immediately followed by the gradient
clear (after all backward passes), advances the `TrainState` once, and emits
exactly one log record carrying the task name, the per-task step, the global
step, and the accumulated `complex_backpropagate` loss sum divided by
`gradient_accumulation_steps`. -/
theorem run_train_step_spec (cbp : Rat → Nat → Rat) (task_name : String)
    (g : Nat) (losses : Nat → Rat) (pos : Nat) (ts : TrainState)
    (hg : 0 < g) (ht : ts.tracked task_name = true) :
    ∃ trace ts',
      run_train_step cbp task_name g losses pos ts = some (trace, ts') ∧
      trace.countP isSamplePopEv = 1 ∧
      trace.countP isPullEv = g ∧
      (∀ i, i < g → Event.pullBatch task_name (pos + i) ∈ trace) ∧
      trace.countP isBackpropEv = g ∧
      (∃ l1 l2, trace = l1 ++ Event.optStep :: Event.zeroGrad :: l2 ∧
        l1.countP isBackpropEv = g ∧ l2.countP isBackpropEv = 0) ∧
      trace.countP isOptStepEv = 1 ∧
      trace.countP isZeroGradEv = 1 ∧
      ts'.global_steps = ts.global_steps + 1 ∧
      trace.countP isLogLossEv = 1 ∧
      Event.logLossTrain task_name
        ((lookupTask ts.task_steps task_name).getD 0 + 1) (ts.global_steps + 1)
        (Finset.sum (Finset.range g) (fun i => cbp (losses (pos + i)) g) / (g : Rat))
        ∈ trace := by
  obtain ⟨v, ts', hv, hstep, hglob, hlook, _⟩ := TrainState.step_tracked_spec ts task_name ht
  obtain ⟨hp, hb, _, hm⟩ := microBatchLoop_shape cbp task_name losses g pos g
  have hevent : Event.logLossTrain task_name
      ((lookupTask ts'.task_steps task_name).getD 0) ts'.global_steps
      ((microBatchLoop cbp task_name losses g pos g).2 / (g : Rat)) =
      Event.logLossTrain task_name
      ((lookupTask ts.task_steps task_name).getD 0 + 1) (ts.global_steps + 1)
      (Finset.sum (Finset.range g) (fun i => cbp (losses (pos + i)) g) / (g : Rat)) := by
    rw [hlook, hv, hglob, microBatchLoop_sum]
    simp
  refine ⟨Event.samplePop task_name :: (microBatchLoop cbp task_name losses g pos g).1 ++
      [Event.optStep, Event.zeroGrad,
       Event.logLossTrain task_name ((lookupTask ts'.task_steps task_name).getD 0)
         ts'.global_steps ((microBatchLoop cbp task_name losses g pos g).2 / (g : Rat))],
    ts', ?_, ?_, ?_, ?_, ?_, ?_, ?_, ?_, ?_, ?_, ?_⟩
  · simp only [run_train_step, hstep]
  · simp [List.countP_cons, List.countP_append, isSamplePopEv,
      microBatchLoop_countP_zero cbp task_name losses g pos g isSamplePopEv
        (fun _ _ => rfl) (fun _ => rfl)]
  · simp [List.countP_cons, List.countP_append, isPullEv, hp]
  · intro i hi
    exact List.mem_cons_of_mem _ (List.mem_append_left _ (hm i hi))
  · simp [List.countP_cons, List.countP_append, isBackpropEv, hb]
  · refine ⟨Event.samplePop task_name :: (microBatchLoop cbp task_name losses g pos g).1,
      [Event.logLossTrain task_name ((lookupTask ts'.task_steps task_name).getD 0)
         ts'.global_steps ((microBatchLoop cbp task_name losses g pos g).2 / (g : Rat))],
      by simp, ?_, ?_⟩
    · simp [List.countP_cons, isBackpropEv, hb]
    · simp [List.countP_cons, isBackpropEv]
  · simp [List.countP_cons, List.countP_append, isOptStepEv,
      microBatchLoop_countP_zero cbp task_name losses g pos g isOptStepEv
        (fun _ _ => rfl) (fun _ => rfl)]
  · simp [List.countP_cons, List.countP_append, isZeroGradEv,
      microBatchLoop_countP_zero cbp task_name losses g pos g isZeroGradEv
        (fun _ _ => rfl) (fun _ => rfl)]
  · exact hglob
  · simp [List.countP_cons, List.countP_append, isLogLossEv,
      microBatchLoop_countP_zero cbp task_name losses g pos g isLogLossEv
        (fun _ _ => rfl) (fun _ => rfl)]
  · rw [← hevent]
    simp

/-- Witness for C2: two accumulation steps over a one-task container, with
`complex_backpropagate` modelled as loss scaling by the accumulation factor. -/
theorem run_train_step_spec_witness :
    0 < 2 ∧ (TrainState.from_task_name_list ["mnli"]).tracked "mnli" = true ∧
    ∃ trace ts',
      run_train_step (fun l a => l / (a : Rat)) "mnli" 2 (fun _ => 1) 0
        (TrainState.from_task_name_list ["mnli"]) = some (trace, ts') ∧
      trace.countP isBackpropEv = 2 ∧ ts'.global_steps = 1 := by
  have h := run_train_step_spec (fun l a => l / (a : Rat)) "mnli" 2 (fun _ => 1) 0
    (TrainState.from_task_name_list ["mnli"]) (by decide) (by decide)
  obtain ⟨trace, ts', hrun, _, _, _, hbp, _, _, _, hglob, _, _⟩ := h
  exact ⟨by decide, by decide, trace, ts', hrun, hbp, hglob⟩

/-- One evaluation batch as seen by `run_val`: the batch's mean loss
(`model_output.loss.mean().item()`) and its example count (`len(batch)`). -/
structure ValBatch where
  mean_loss : Rat
  size : Nat
  deriving Repr, DecidableEq

/-- The accumulation loop of `run_val`: starting from zero, each batch adds
its mean loss to `total_eval_loss`, adds one to `nb_eval_steps`, and adds its
example count to `nb_eval_examples`. -/
def runValLoop (batches : List ValBatch) : Rat × Nat × Nat :=
  batches.foldl (fun acc b => (acc.1 + b.mean_loss, acc.2.1 + 1, acc.2.2 + b.size))
    ((0 : Rat), (0 : Nat), (0 : Nat))

/-- The eval loss returned by `run_val`:
`eval_loss = total_eval_loss / nb_eval_steps`. `none` models the silent
early return on a non-primary distributed role (`local_rank != -1`). -/
def run_val_loss (local_rank : Int) (batches : List ValBatch) : Option Rat :=
  if local_rank = -1 then
    some ((runValLoop batches).1 / ((runValLoop batches).2.1 : Rat))
  else none

theorem runValLoop_foldl (l : List ValBatch) (a : Rat × Nat × Nat) :
    l.foldl (fun acc b => (acc.1 + b.mean_loss, acc.2.1 + 1, acc.2.2 + b.size)) a =
      (a.1 + (l.map ValBatch.mean_loss).sum, a.2.1 + l.length,
       a.2.2 + (l.map ValBatch.size).sum) := by
  induction l generalizing a with
  | nil => simp
  | cons hd tl ih =>
      simp only [List.foldl, List.map, List.sum_cons, List.length_cons, ih]
      refine Prod.ext ?_ (Prod.ext ?_ ?_) <;> simp <;> first | ring | omega

theorem runValLoop_eq (batches : List ValBatch) :
    runValLoop batches = ((batches.map ValBatch.mean_loss).sum, batches.length,
      (batches.map ValBatch.size).sum) := by
  simp [runValLoop, runValLoop_foldl]

/-- C4: on the primary role, with a non-empty evaluation stream of `k`
batches with per-batch mean losses `l1..lk`, the loss `run_val` returns is
the simple arithmetic mean `(l1 + ... + lk) / k`; it is independent of the
batch sizes, so it is not a batch-size-weighted mean. -/
theorem run_val_loss_simple_mean (batches : List ValBatch) (hne : batches ≠ []) :
    run_val_loss (-1) batches =
      some ((batches.map ValBatch.mean_loss).sum / (batches.length : Rat)) ∧
    (∀ resize : ValBatch → Nat,
      run_val_loss (-1) (batches.map (fun b => ValBatch.mk b.mean_loss (resize b))) =
        run_val_loss (-1) batches) := by
  constructor
  · simp [run_val_loss, runValLoop_eq]
  · intro resize
    simp only [run_val_loss, if_pos rfl, runValLoop_eq, List.map_map, List.length_map]
    have hml : batches.map (ValBatch.mean_loss ∘ fun b => ValBatch.mk b.mean_loss (resize b)) =
        batches.map ValBatch.mean_loss := by
      apply List.map_congr_left
      intro b _
      rfl
    rw [hml]

/-- Witness for C4: two batches of unequal sizes with mean losses 1 and 2;
the eval loss is the unweighted mean 3/2. -/
theorem run_val_loss_simple_mean_witness :
    ([ValBatch.mk 1 4, ValBatch.mk 2 6] : List ValBatch) ≠ [] ∧
    run_val_loss (-1) [ValBatch.mk 1 4, ValBatch.mk 2 6] =
      some (([ValBatch.mk 1 4, ValBatch.mk 2 6].map ValBatch.mean_loss).sum /
        (([ValBatch.mk 1 4, ValBatch.mk 2 6] : List ValBatch).length : Rat)) := by
  have h := run_val_loss_simple_mean [ValBatch.mk 1 4, ValBatch.mk 2 6] (by simp)
  exact ⟨by simp, h.1⟩

/-- A training micro-batch for the DDS runner: example count (`len(batch)`),
the unreduced per-example loss vector the model forward returns, the batch's
`label_id` column, and the metadata's `example_id` column. -/
structure MicroBatch where
  size : Nat
  lossVec : List Rat
  label_ids : List Rat
  example_ids : List Nat
  deriving Repr, DecidableEq

/-- Result of `DDSRunner.run_one_batch` when it completes: the stream
position after its loop, the last pulled batch (`none` when the loop ran
zero times, in which case Python's local `batch` stays unbound), the
collected `example_ids` and `dds_weights`, and the accumulated `loss_val`. -/
structure DDSBatchResult where
  pos : Nat
  lastBatch : Option MicroBatch
  example_ids : List Nat
  dds_weights : List Rat
  loss_val : Rat
  deriving Repr, DecidableEq

/-- The `while True` re-sampling loop at the top of
`DDSRunner.run_train_step`: pop tasks from the sampler until the drawn name
differs from the reserved target task. `fuel` bounds the unrolling; `none`
models the loop never terminating because every draw in the window is the
target task. Returns the index of the accepted draw and the drawn name. -/
def sampleNonTarget (sampler : Nat → String) (target : String) :
    Nat → Nat → Option (Nat × String)
  | _, 0 => none
  | i, Nat.succ fuel =>
      if sampler i = target then sampleNonTarget sampler target (i + 1) fuel
      else some (i, sampler i)

/-- The micro-batch loop of `DDSRunner.run_one_batch`. For each round: pull
a batch, forward with `unreduced_loss=True`, assert the loss vector's shape
equals the batch size (`Except.error "AssertionError"` models the fatal
assertion, raised before any weighting or backward pass for that batch),
compute per-example weights (all ones for the target task, the weighting
model's scores `wmodel` otherwise), take the weighted mean as the loss, and
call `complex_backpropagate` (`cbp`, with the loop's accumulation factor
`g_total`). Emits the pull/backprop events that happened before any failure. -/
def dds_run_one_batch (cbp : Rat → Nat → Rat) (wmodel : MicroBatch → List Rat)
    (stream : Nat → MicroBatch) (task_name : String) (g_total : Nat)
    (is_target : Bool) :
    Nat → Nat → Option MicroBatch → List Nat → List Rat → Rat →
    List Event × Except String DDSBatchResult
  | pos, 0, lastB, eids, ws, lv =>
      ([], Except.ok (DDSBatchResult.mk pos lastB eids ws lv))
  | pos, Nat.succ n, _, eids, ws, lv =>
      let b := stream pos
      if b.lossVec.length = b.size then
        let weights := if is_target then List.replicate b.size 1 else wmodel b
        let raw_loss := (List.zipWith (fun x y => x * y) weights b.lossVec).sum / (b.size : Rat)
        let rest := dds_run_one_batch cbp wmodel stream task_name g_total is_target
          (pos + 1) n (some b) (eids ++ b.example_ids) (ws ++ weights)
          (lv + cbp raw_loss g_total)
        (Event.pullBatch task_name pos :: Event.backprop raw_loss :: rest.1, rest.2)
      else
        ([Event.pullBatch task_name pos], Except.error "AssertionError")

/-- The `dds_update_steps` loop inside `DDSRunner.run_train_step`'s periodic
update block: each round runs one target-task batch (accumulation forced to
1), snapshots the shared gradient and zeroes gradients, binds `rewards` to
the main step's last batch's `label_id` column (the active placeholder
policy), and runs one weighting-model optimizer step producing `rl_loss`
(value abstracted by `rlf`). Returns the events, the final target-stream
position, and the locals `rewards`/`rl_loss` — `none` when the loop body
never assigned them, modelling unbound Python locals. -/
def dds_update_loop (cbp : Rat → Nat → Rat) (wmodel : MicroBatch → List Rat)
    (tstream : Nat → MicroBatch) (rlf : MicroBatch → List Rat → Rat)
    (target : String) (mainBatch : MicroBatch) :
    Nat → Nat → Option (List Rat) → Option Rat →
    List Event × Except String (Nat × Option (List Rat) × Option Rat)
  | tpos, 0, rew, rl => ([], Except.ok (tpos, rew, rl))
  | tpos, Nat.succ k, _, _ =>
      let tb := dds_run_one_batch cbp wmodel tstream target 1 true tpos 1 none [] [] 0
      match tb.2 with
      | Except.error e => (tb.1, Except.error e)
      | Except.ok _ =>
          let rewards := mainBatch.label_ids
          let rl_loss := rlf mainBatch rewards
          let rest := dds_update_loop cbp wmodel tstream rlf target mainBatch
            (tpos + 1) k (some rewards) (some rl_loss)
          (tb.1 ++ [Event.sharedGrad, Event.zeroGrad, Event.ddsOptStep] ++ rest.1,
           rest.2)

/-- Method `DDSRunner.run_train_step`: re-sample until the drawn task differs from
the target task, run the main accumulation group with per-example weights,
check the accumulation-consistency assertion on the last batch, snapshot the
shared gradient, apply one main optimizer step and gradient clear, advance
the `TrainState`, run the periodic weighting-model update block when
`dds_update_freq` divides the new global step, then read the function-local
variables `rewards`/`rl_loss` to build the `dds_details_logs.jsonl` record
and the `loss_train` record — reading them raises `UnboundLocalError` when
the update block did not assign them, before either record is emitted. -/
def dds_run_train_step (cbp : Rat → Nat → Rat) (wmodel : MicroBatch → List Rat)
    (sampler : Nat → String) (fuel si : Nat)
    (stream tstream : Nat → MicroBatch) (rlf : MicroBatch → List Rat → Rat)
    (gconf : String → Nat) (target : String)
    (dds_update_freq dds_update_steps : Nat)
    (pos tpos : Nat) (ts : TrainState) :
    List Event × Except String (String × TrainState) :=
  match sampleNonTarget sampler target si fuel with
  | none => ([], Except.error "NonTermination")
  | some (_, task_name) =>
      let mb := dds_run_one_batch cbp wmodel stream task_name (gconf task_name) false
        pos (gconf task_name) none [] [] 0
      match mb.2 with
      | Except.error e => (Event.samplePop task_name :: mb.1, Except.error e)
      | Except.ok r =>
          match r.lastBatch with
          | none => (Event.samplePop task_name :: mb.1, Except.error "UnboundLocalError")
          | some lastB =>
              if lastB.size = r.example_ids.length then
                let pre := Event.samplePop task_name :: mb.1 ++
                  [Event.sharedGrad, Event.optStep, Event.zeroGrad]
                match ts.step task_name with
                | none => (pre, Except.error "KeyError")
                | some ts' =>
                    let upd :=
                      if ts'.global_steps % dds_update_freq = 0 then
                        dds_update_loop cbp wmodel tstream rlf target lastB tpos
                          dds_update_steps none none
                      else ([], Except.ok (tpos, none, none))
                    match upd.2 with
                    | Except.error e => (pre ++ upd.1, Except.error e)
                    | Except.ok (_, rew, rl) =>
                        match rew, rl with
                        | some _, some _ =>
                            (pre ++ upd.1 ++
                              [Event.logDDSDetails task_name ts'.global_steps,
                               Event.logLossTrain task_name
                                 ((lookupTask ts'.task_steps task_name).getD 0)
                                 ts'.global_steps
                                 (r.loss_val / (gconf task_name : Rat))],
                             Except.ok (task_name, ts'))
                        | _, _ =>
                            (pre ++ upd.1, Except.error "UnboundLocalError")
              else
                (Event.samplePop task_name :: mb.1, Except.error "AssertionError")

theorem sampleNonTarget_ne (sampler : Nat → String) (target : String)
    (i fuel j : Nat) (name : String)
    (h : sampleNonTarget sampler target i fuel = some (j, name)) :
    name ≠ target ∧ name = sampler j ∧ i ≤ j := by
  induction fuel generalizing i with
  | zero => simp [sampleNonTarget] at h
  | succ fuel ih =>
      simp only [sampleNonTarget] at h
      by_cases hi : sampler i = target
      · rw [if_pos hi] at h
        obtain ⟨h1, h2, h3⟩ := ih (i + 1) h
        exact ⟨h1, h2, by omega⟩
      · rw [if_neg hi] at h
        injection h with h'
        injection h' with ha hb
        subst ha
        subst hb
        exact ⟨hi, rfl, le_refl _⟩

theorem sampleNonTarget_total (sampler : Nat → String) (target : String)
    (i fuel : Nat) (h : ∃ j, i ≤ j ∧ j < i + fuel ∧ sampler j ≠ target) :
    (sampleNonTarget sampler target i fuel).isSome = true := by
  induction fuel generalizing i with
  | zero =>
      obtain ⟨j, h1, h2, _⟩ := h
      omega
  | succ fuel ih =>
      simp only [sampleNonTarget]
      by_cases hi : sampler i = target
      · rw [if_pos hi]
        apply ih (i + 1)
        obtain ⟨j, h1, h2, h3⟩ := h
        rcases Nat.eq_or_lt_of_le h1 with heq | hlt
        · subst heq
          exact absurd hi h3
        · exact ⟨j, by omega, by omega, h3⟩
      · rw [if_neg hi]
        rfl

/-- C5: the re-sampling loop in the DDS runner's `run_train_step` only ever
accepts a draw different from the configured target task, it terminates as
soon as the sampler window contains a non-target draw, and consequently any
completed `dds_run_train_step` trained on a task different from the target
task. -/
theorem dds_main_step_never_target (sampler : Nat → String) (target : String)
    (si fuel : Nat) :
    (∀ j name, sampleNonTarget sampler target si fuel = some (j, name) →
      name ≠ target ∧ name = sampler j) ∧
    ((∃ j, si ≤ j ∧ j < si + fuel ∧ sampler j ≠ target) →
      (sampleNonTarget sampler target si fuel).isSome = true) ∧
    (∀ (cbp : Rat → Nat → Rat) (wmodel : MicroBatch → List Rat)
      (stream tstream : Nat → MicroBatch) (rlf : MicroBatch → List Rat → Rat)
      (gconf : String → Nat) (f u pos tpos : Nat) (ts : TrainState)
      (evs : List Event) (task_name : String) (ts' : TrainState),
      dds_run_train_step cbp wmodel sampler fuel si stream tstream rlf gconf
        target f u pos tpos ts = (evs, Except.ok (task_name, ts')) →
      task_name ≠ target) := by
  refine ⟨?_, sampleNonTarget_total sampler target si fuel, ?_⟩
  · intro j name h
    obtain ⟨h1, h2, _⟩ := sampleNonTarget_ne sampler target si fuel j name h
    exact ⟨h1, h2⟩
  · intro cbp wmodel stream tstream rlf gconf f u pos tpos ts evs task_name ts' heq
    unfold dds_run_train_step at heq
    cases hs : sampleNonTarget sampler target si fuel with
    | none =>
        rw [hs] at heq
        simp at heq
    | some p =>
        obtain ⟨j, nm⟩ := p
        rw [hs] at heq
        have hnm : nm ≠ target := (sampleNonTarget_ne sampler target si fuel j nm hs).1
        simp only at heq
        split at heq
        · simp at heq
        · split at heq
          · simp at heq
          · split at heq
            · split at heq
              · simp at heq
              · split at heq
                · simp at heq
                · split at heq
                  · simp only [Prod.mk.injEq, Except.ok.injEq] at heq
                    obtain ⟨-, htn, -⟩ := heq
                    rw [← htn]
                    exact hnm
                  · simp at heq
            · simp at heq

/-- Witness for C5: a sampler that draws the target first and a non-target
task second; the accepted draw is the non-target task. -/
theorem dds_main_step_never_target_witness :
    ("mnli" : String) ≠ "rte" ∧
    (sampleNonTarget (fun i => if i = 0 then "rte" else "mnli") "rte" 0 2).isSome
      = true := by
  have h := dds_main_step_never_target
    (fun i => if i = 0 then "rte" else "mnli") "rte" 0 2
  refine ⟨(h.1 1 "mnli" (by decide)).1, h.2.1 ⟨1, by omega, by omega, by decide⟩⟩

/-- C9: in `DDSRunner.run_one_batch`, if the `j`-th micro-batch is the first
whose unreduced per-example loss vector's shape differs from the batch size,
the loop fails with the assertion error at that batch: the `j` earlier
batches each contributed one backward pass, the failing batch was pulled but
got no backward pass, and no further batch is pulled (no retry). -/
theorem dds_run_one_batch_shape_assert (cbp : Rat → Nat → Rat)
    (wmodel : MicroBatch → List Rat) (stream : Nat → MicroBatch)
    (task_name : String) (g_total : Nat) (is_target : Bool)
    (pos n j : Nat) (lastB : Option MicroBatch) (eids : List Nat)
    (ws : List Rat) (lv : Rat)
    (hj : j < n)
    (hok : ∀ i, i < j → (stream (pos + i)).lossVec.length = (stream (pos + i)).size)
    (hbad : (stream (pos + j)).lossVec.length ≠ (stream (pos + j)).size) :
    ∃ evs,
      dds_run_one_batch cbp wmodel stream task_name g_total is_target
        pos n lastB eids ws lv = (evs, Except.error "AssertionError") ∧
      evs.countP isBackpropEv = j ∧ evs.countP isPullEv = j + 1 := by
  induction j generalizing pos n lastB eids ws lv with
  | zero =>
      cases n with
      | zero => omega
      | succ m =>
          rw [Nat.add_zero] at hbad
          refine ⟨[Event.pullBatch task_name pos], ?_, by simp [isBackpropEv], by simp [isPullEv]⟩
          simp only [dds_run_one_batch]
          rw [if_neg hbad]
  | succ j ih =>
      cases n with
      | zero => omega
      | succ m =>
          have h0 : (stream (pos + 0)).lossVec.length = (stream (pos + 0)).size :=
            hok 0 (by omega)
          rw [Nat.add_zero] at h0
          have hok' : ∀ i, i < j →
              (stream (pos + 1 + i)).lossVec.length = (stream (pos + 1 + i)).size := by
            intro i hi
            have := hok (i + 1) (by omega)
            have harith : pos + (i + 1) = pos + 1 + i := by omega
            rw [harith] at this
            exact this
          have hbad' : (stream (pos + 1 + j)).lossVec.length ≠ (stream (pos + 1 + j)).size := by
            have harith : pos + 1 + j = pos + (j + 1) := by omega
            rw [harith]
            exact hbad
          obtain ⟨evs, hrun, hb, hp⟩ := ih (pos + 1) m (some (stream pos))
            (eids ++ (stream pos).example_ids)
            (ws ++ (if is_target then List.replicate (stream pos).size 1 else wmodel (stream pos)))
            (lv + cbp ((List.zipWith (fun x y => x * y)
              (if is_target then List.replicate (stream pos).size 1 else wmodel (stream pos))
              (stream pos).lossVec).sum / ((stream pos).size : Rat)) g_total)
            (by omega) hok' hbad'
          refine ⟨Event.pullBatch task_name pos ::
            Event.backprop ((List.zipWith (fun x y => x * y)
              (if is_target then List.replicate (stream pos).size 1 else wmodel (stream pos))
              (stream pos).lossVec).sum / ((stream pos).size : Rat)) :: evs, ?_, ?_, ?_⟩
          · simp only [dds_run_one_batch]
            rw [if_pos h0, hrun]
          · simp [List.countP_cons, isBackpropEv, hb]
          · simp [List.countP_cons, isPullEv, hp]

/-- Witness for C9: the first batch is well-shaped, the second batch's loss
vector has length 1 against batch size 2; the loop errors with one backward
pass done and two batches pulled. -/
theorem dds_run_one_batch_shape_assert_witness :
    ∃ evs,
      dds_run_one_batch (fun l _ => l) (fun b => List.replicate b.size 1)
        (fun i => if i = 0 then MicroBatch.mk 2 [1, 2] [0, 1] [0, 1]
                  else MicroBatch.mk 2 [1] [0] [2])
        "qqp" 2 false 0 2 none [] [] 0 = (evs, Except.error "AssertionError") ∧
      evs.countP isBackpropEv = 1 ∧ evs.countP isPullEv = 1 + 1 :=
  dds_run_one_batch_shape_assert (fun l _ => l) (fun b => List.replicate b.size 1)
    (fun i => if i = 0 then MicroBatch.mk 2 [1, 2] [0, 1] [0, 1]
              else MicroBatch.mk 2 [1] [0] [2])
    "qqp" 2 false 0 2 1 none [] [] 0 (by omega)
    (by
      intro i hi
      have h0 : i = 0 := by omega
      subst h0
      rfl)
    (by decide)

/-- C10: in the DDS runner's `run_train_step`, when the completed step's new
global step count is not a multiple of `dds_update_freq`, the periodic update
block is skipped, so the function-local variables `rewards` and `rl_loss` are
never assigned and building the per-step log record fails with an
`UnboundLocalError`; the step emits no `dds_details` record and no
`loss_train` record. (Hypotheses restrict to a step that reaches the record-
building code: the sampler yields a non-target task, accumulation is 1 and
the micro-batch is well-shaped, and the task is tracked.) -/
theorem dds_step_unbound_local_on_nonupdate (cbp : Rat → Nat → Rat)
    (wmodel : MicroBatch → List Rat) (sampler : Nat → String) (fuel si : Nat)
    (stream tstream : Nat → MicroBatch) (rlf : MicroBatch → List Rat → Rat)
    (gconf : String → Nat) (target : String) (f u pos tpos : Nat)
    (ts : TrainState) (j : Nat) (task_name : String)
    (hs : sampleNonTarget sampler target si fuel = some (j, task_name))
    (hg1 : gconf task_name = 1)
    (hshape : (stream pos).lossVec.length = (stream pos).size)
    (heids : (stream pos).size = (stream pos).example_ids.length)
    (htrack : ts.tracked task_name = true)
    (hfreq : (ts.global_steps + 1) % f ≠ 0) :
    ∃ evs,
      dds_run_train_step cbp wmodel sampler fuel si stream tstream rlf gconf
        target f u pos tpos ts = (evs, Except.error "UnboundLocalError") ∧
      evs.countP isDDSLogEv = 0 ∧ evs.countP isLogLossEv = 0 := by
  obtain ⟨v, ts', hv, hstep, hglob, hlook, _⟩ :=
    TrainState.step_tracked_spec ts task_name htrack
  have hfreq' : ¬ (ts'.global_steps % f = 0) := by
    rw [hglob]
    exact hfreq
  have hmb : dds_run_one_batch cbp wmodel stream task_name 1 false pos 1 none [] [] 0 =
      ([Event.pullBatch task_name pos,
        Event.backprop ((List.zipWith (fun x y => x * y) (wmodel (stream pos))
          (stream pos).lossVec).sum / ((stream pos).size : Rat))],
       Except.ok (DDSBatchResult.mk (pos + 1) (some (stream pos))
         ([] ++ (stream pos).example_ids) ([] ++ wmodel (stream pos))
         (0 + cbp ((List.zipWith (fun x y => x * y) (wmodel (stream pos))
           (stream pos).lossVec).sum / ((stream pos).size : Rat)) 1))) := by
    simp only [dds_run_one_batch]
    rw [if_pos hshape]
    simp [dds_run_one_batch]
  refine ⟨Event.samplePop task_name ::
      [Event.pullBatch task_name pos,
       Event.backprop ((List.zipWith (fun x y => x * y) (wmodel (stream pos))
         (stream pos).lossVec).sum / ((stream pos).size : Rat))] ++
      [Event.sharedGrad, Event.optStep, Event.zeroGrad], ?_,
    by simp [List.countP_cons, isDDSLogEv],
    by simp [List.countP_cons, isLogLossEv]⟩
  unfold dds_run_train_step
  rw [hs]
  simp only [hg1, hmb]
  simp only [List.nil_append, ← heids, if_pos rfl]
  rw [hstep]
  simp only [if_neg hfreq']
  simp

/-- Witness for C10: a fresh state, `dds_update_freq = 2`: the very first
step crashes with `UnboundLocalError` before emitting any log record. -/
theorem dds_step_unbound_local_on_nonupdate_witness :
    ∃ evs,
      dds_run_train_step (fun l _ => l) (fun b => List.replicate b.size 1)
        (fun _ => "mnli") 1 0 (fun _ => MicroBatch.mk 1 [1] [1] [5])
        (fun _ => MicroBatch.mk 1 [1] [1] [5]) (fun _ _ => 0) (fun _ => 1)
        "rte" 2 1 0 0 (TrainState.from_task_name_list ["mnli"]) =
        (evs, Except.error "UnboundLocalError") ∧
      evs.countP isDDSLogEv = 0 ∧ evs.countP isLogLossEv = 0 :=
  dds_step_unbound_local_on_nonupdate (fun l _ => l)
    (fun b => List.replicate b.size 1) (fun _ => "mnli") 1 0
    (fun _ => MicroBatch.mk 1 [1] [1] [5]) (fun _ => MicroBatch.mk 1 [1] [1] [5])
    (fun _ _ => 0) (fun _ => 1) "rte" 2 1 0 0
    (TrainState.from_task_name_list ["mnli"]) 0 "mnli"
    (by decide) rfl rfl rfl (by decide) (by decide)

/-- C6 (code bug demonstration): with `dds_update_freq = 2`, the first DDS
training step appends no record to `dds_details_logs.jsonl` — it dies with
`UnboundLocalError` instead — whereas with `dds_update_freq = 1` (every step
a periodic-update step) the step appends exactly one record; so the code
appends one record per step only on periodic-update steps, not on all
steps. -/
theorem dds_details_record_only_on_update_steps :
    (dds_run_train_step (fun l _ => l) (fun b => List.replicate b.size 1)
        (fun _ => "qnli") 1 0 (fun _ => MicroBatch.mk 1 [2] [3] [7])
        (fun _ => MicroBatch.mk 1 [2] [3] [7]) (fun _ _ => 0) (fun _ => 1)
        "boolq" 2 1 0 0 (TrainState.from_task_name_list ["qnli"])).2 =
      Except.error "UnboundLocalError" ∧
    ((dds_run_train_step (fun l _ => l) (fun b => List.replicate b.size 1)
        (fun _ => "qnli") 1 0 (fun _ => MicroBatch.mk 1 [2] [3] [7])
        (fun _ => MicroBatch.mk 1 [2] [3] [7]) (fun _ _ => 0) (fun _ => 1)
        "boolq" 2 1 0 0 (TrainState.from_task_name_list ["qnli"])).1.countP
      isDDSLogEv = 0) ∧
    ((dds_run_train_step (fun l _ => l) (fun b => List.replicate b.size 1)
        (fun _ => "qnli") 1 0 (fun _ => MicroBatch.mk 1 [2] [3] [7])
        (fun _ => MicroBatch.mk 1 [2] [3] [7]) (fun _ _ => 0) (fun _ => 1)
        "boolq" 1 1 0 0 (TrainState.from_task_name_list ["qnli"])).1.countP
      isDDSLogEv = 1) := by
  refine ⟨?_, ?_, ?_⟩ <;> rfl

/-- Abstract optimizer state for the MultiDDS runner: the gradient buffer of
the optimizer's shared parameter groups and the model weights, each
collapsed to one rational coordinate. A backward pass adds its gradient
contribution to `grads`; `optimizer.zero_grad()` resets `grads` to zero; an
optimizer step is the only operation that changes `weights`. -/
structure OptState where
  grads : Rat
  weights : Rat
  deriving Repr, DecidableEq

/-- The local `run_one_batch` closure of `MultiDDSRunner.run_train_step`:
one accumulation group of `n` micro-batches on task `tname`; each backward
pass adds `gradc pos` to the gradient buffer and accumulates
`cbp (losses pos) g` into `loss_val`; the model weights are untouched.
Returns the new optimizer state, `loss_val`, the stream position, and the
events. -/
def mdds_run_one_batch (cbp : Rat → Nat → Rat) (gradc : Nat → Rat)
    (losses : Nat → Rat) (g : Nat) (tname : String) :
    Nat → Nat → OptState → OptState × Rat × Nat × List Event
  | pos, 0, st => (st, 0, pos, [])
  | pos, Nat.succ n, st =>
      let st1 := OptState.mk (st.grads + gradc pos) st.weights
      let rest := mdds_run_one_batch cbp gradc losses g tname (pos + 1) n st1
      (rest.1, cbp (losses pos) g + rest.2.1, rest.2.2.1,
       Event.pullBatch tname pos :: Event.backprop (losses pos) :: rest.2.2.2)

/-- The per-task probe loop of the MultiDDS sampler-update block: for every
task in the task set, run one accumulation group, read the shared gradient
without copying, compute its similarity `sim` against the target gradient,
and zero the gradient buffer. Returns the final optimizer state, the stream
position, the per-task similarity rewards, and the events. -/
def mdds_probe_loop (cbp : Rat → Nat → Rat) (gradc : Nat → Rat)
    (losses : Nat → Rat) (gconf : String → Nat) (sim : Rat → Rat → Rat)
    (tgrad : Rat) :
    List String → Nat → OptState → OptState × Nat × List Rat × List Event
  | [], pos, st => (st, pos, [], [])
  | t :: rest, pos, st =>
      let rb := mdds_run_one_batch cbp gradc losses (gconf t) t pos (gconf t) st
      let simv := sim tgrad rb.1.grads
      let st1 := OptState.mk 0 rb.1.weights
      let r := mdds_probe_loop cbp gradc losses gconf sim tgrad rest rb.2.2.1 st1
      (r.1, r.2.1, simv :: r.2.2.1,
       rb.2.2.2 ++ [Event.sharedGrad, Event.gradSim, Event.zeroGrad] ++ r.2.2.2)

/-- The sampler-update block of `MultiDDSRunner.run_train_step` (lines
guarded by `global_steps % sampler_update_freq == 0`): run one target-task
accumulation group, snapshot the target's shared gradient with copy, zero
gradients, optionally accumulate the target gradient into a persistent
buffer, probe every task, then feed the reward vector to
`update_sampler` and write the probability log. Returns the final optimizer
state, the target-gradient value used, the rewards, and the events. -/
def mdds_update_block (cbp : Rat → Nat → Rat) (gradc : Nat → Rat)
    (losses : Nat → Rat) (gconf : String → Nat) (sim : Rat → Rat → Rat)
    (accumulate_target_grad : Bool) (tgrad0 : Rat) (target : String)
    (tasks : List String) (pos : Nat) (st : OptState) :
    OptState × Rat × List Rat × List Event :=
  let tb := mdds_run_one_batch cbp gradc losses (gconf target) target pos
    (gconf target) st
  let current := tb.1.grads
  let st1 := OptState.mk 0 tb.1.weights
  let tgrad := if accumulate_target_grad then tgrad0 + current else current
  let pr := mdds_probe_loop cbp gradc losses gconf sim tgrad tasks tb.2.2.1 st1
  (pr.1, tgrad, pr.2.2.1,
   tb.2.2.2 ++ [Event.sharedGrad, Event.zeroGrad] ++ pr.2.2.2 ++ [Event.samplerUpdate])

/-- The tail of `MultiDDSRunner.run_train_step` after the main optimizer
step: the sampler-update block runs exactly when `sampler_update_freq`
divides the new global step count, otherwise the optimizer state is left
alone. -/
def mdds_post_step_update (cbp : Rat → Nat → Rat) (gradc : Nat → Rat)
    (losses : Nat → Rat) (gconf : String → Nat) (sim : Rat → Rat → Rat)
    (accumulate_target_grad : Bool) (tgrad0 : Rat) (target : String)
    (tasks : List String) (freq global_steps pos : Nat) (st : OptState) :
    OptState × List Event :=
  if global_steps % freq = 0 then
    let blk := mdds_update_block cbp gradc losses gconf sim
      accumulate_target_grad tgrad0 target tasks pos st
    (blk.1, blk.2.2.2)
  else (st, [])

theorem mdds_run_one_batch_basic (cbp : Rat → Nat → Rat) (gradc : Nat → Rat)
    (losses : Nat → Rat) (g : Nat) (tname : String) (pos n : Nat) (st : OptState) :
    (mdds_run_one_batch cbp gradc losses g tname pos n st).1.weights = st.weights ∧
    (mdds_run_one_batch cbp gradc losses g tname pos n st).2.2.2.countP isOptStepEv = 0 ∧
    (mdds_run_one_batch cbp gradc losses g tname pos n st).2.2.2.countP isZeroGradEv = 0 := by
  induction n generalizing pos st with
  | zero => simp [mdds_run_one_batch]
  | succ n ih =>
      obtain ⟨hw, ho, hz⟩ := ih (pos + 1) (OptState.mk (st.grads + gradc pos) st.weights)
      refine ⟨?_, ?_, ?_⟩
      · simp only [mdds_run_one_batch]
        rw [hw]
      · simp [mdds_run_one_batch, List.countP_cons, isOptStepEv, ho]
      · simp [mdds_run_one_batch, List.countP_cons, isZeroGradEv, hz]

theorem mdds_probe_loop_basic (cbp : Rat → Nat → Rat) (gradc : Nat → Rat)
    (losses : Nat → Rat) (gconf : String → Nat) (sim : Rat → Rat → Rat)
    (tgrad : Rat) (tasks : List String) (pos : Nat) (st : OptState) :
    (st.grads = 0 →
      (mdds_probe_loop cbp gradc losses gconf sim tgrad tasks pos st).1.grads = 0) ∧
    (mdds_probe_loop cbp gradc losses gconf sim tgrad tasks pos st).1.weights
      = st.weights ∧
    (mdds_probe_loop cbp gradc losses gconf sim tgrad tasks pos st).2.2.2.countP
      isOptStepEv = 0 ∧
    (mdds_probe_loop cbp gradc losses gconf sim tgrad tasks pos st).2.2.2.countP
      isZeroGradEv = tasks.length := by
  induction tasks generalizing pos st with
  | nil => simp [mdds_probe_loop]
  | cons t rest ih =>
      obtain ⟨hwb, hob, hzb⟩ := mdds_run_one_batch_basic cbp gradc losses
        (gconf t) t pos (gconf t) st
      obtain ⟨hg, hw, ho, hz⟩ := ih
        (mdds_run_one_batch cbp gradc losses (gconf t) t pos (gconf t) st).2.2.1
        (OptState.mk 0
          (mdds_run_one_batch cbp gradc losses (gconf t) t pos (gconf t) st).1.weights)
      refine ⟨fun _ => ?_, ?_, ?_, ?_⟩
      · simp only [mdds_probe_loop]
        exact hg rfl
      · simp only [mdds_probe_loop]
        rw [hw]
        exact hwb
      · simp only [mdds_probe_loop]
        simp [List.countP_append, List.countP_cons, isOptStepEv, hob, ho]
      · simp only [mdds_probe_loop]
        simp [List.countP_append, List.countP_cons, isZeroGradEv, hzb, hz]

/-- C7: when `sampler_update_freq` divides the new global step count, the
MultiDDS sampler-update block runs; within it the optimizer's gradient
buffer is zeroed once after the target-gradient computation and once after
each of the per-task probes (so `1 + #tasks` gradient clears in total), no
optimizer step occurs anywhere in the block, and the block leaves the
gradient buffer zeroed and the model weights exactly as they were when the
block began. -/
theorem mdds_sampler_update_zeroes_gradients (cbp : Rat → Nat → Rat)
    (gradc : Nat → Rat) (losses : Nat → Rat) (gconf : String → Nat)
    (sim : Rat → Rat → Rat) (accumulate_target_grad : Bool) (tgrad0 : Rat)
    (target : String) (tasks : List String) (freq global_steps pos : Nat)
    (st : OptState) (hfreq : global_steps % freq = 0) :
    (mdds_post_step_update cbp gradc losses gconf sim accumulate_target_grad
      tgrad0 target tasks freq global_steps pos st).1.grads = 0 ∧
    (mdds_post_step_update cbp gradc losses gconf sim accumulate_target_grad
      tgrad0 target tasks freq global_steps pos st).1.weights = st.weights ∧
    (mdds_post_step_update cbp gradc losses gconf sim accumulate_target_grad
      tgrad0 target tasks freq global_steps pos st).2.countP isOptStepEv = 0 ∧
    (mdds_post_step_update cbp gradc losses gconf sim accumulate_target_grad
      tgrad0 target tasks freq global_steps pos st).2.countP isZeroGradEv
      = 1 + tasks.length := by
  obtain ⟨hwt, hot, hzt⟩ := mdds_run_one_batch_basic cbp gradc losses
    (gconf target) target pos (gconf target) st
  obtain ⟨hg, hw, ho, hz⟩ := mdds_probe_loop_basic cbp gradc losses gconf sim
    (if accumulate_target_grad then
      tgrad0 + (mdds_run_one_batch cbp gradc losses (gconf target) target pos
        (gconf target) st).1.grads
     else (mdds_run_one_batch cbp gradc losses (gconf target) target pos
        (gconf target) st).1.grads)
    tasks
    (mdds_run_one_batch cbp gradc losses (gconf target) target pos (gconf target) st).2.2.1
    (OptState.mk 0
      (mdds_run_one_batch cbp gradc losses (gconf target) target pos (gconf target) st).1.weights)
  refine ⟨?_, ?_, ?_, ?_⟩
  · simp only [mdds_post_step_update, if_pos hfreq, mdds_update_block]
    exact hg rfl
  · simp only [mdds_post_step_update, if_pos hfreq, mdds_update_block]
    rw [hw]
    exact hwt
  · simp only [mdds_post_step_update, if_pos hfreq, mdds_update_block]
    simp [List.countP_append, List.countP_cons, isOptStepEv, hot, ho]
  · simp only [mdds_post_step_update, if_pos hfreq, mdds_update_block]
    simp [List.countP_append, List.countP_cons, isZeroGradEv, hzt, hz]
    omega

/-- Witness for C7: two probe tasks, update triggered at global step 4 with
`sampler_update_freq = 2`. -/
theorem mdds_sampler_update_zeroes_gradients_witness :
    (mdds_post_step_update (fun l _ => l) (fun _ => 1) (fun _ => 1)
      (fun _ => 1) (fun a b => a * b) false 0 "boolq" ["mnli", "rte"]
      2 4 0 (OptState.mk 5 7)).1.grads = 0 ∧
    (mdds_post_step_update (fun l _ => l) (fun _ => 1) (fun _ => 1)
      (fun _ => 1) (fun a b => a * b) false 0 "boolq" ["mnli", "rte"]
      2 4 0 (OptState.mk 5 7)).1.weights = (OptState.mk 5 7).weights ∧
    (mdds_post_step_update (fun l _ => l) (fun _ => 1) (fun _ => 1)
      (fun _ => 1) (fun a b => a * b) false 0 "boolq" ["mnli", "rte"]
      2 4 0 (OptState.mk 5 7)).2.countP isOptStepEv = 0 ∧
    (mdds_post_step_update (fun l _ => l) (fun _ => 1) (fun _ => 1)
      (fun _ => 1) (fun a b => a * b) false 0 "boolq" ["mnli", "rte"]
      2 4 0 (OptState.mk 5 7)).2.countP isZeroGradEv = 1 + 2 :=
  mdds_sampler_update_zeroes_gradients (fun l _ => l) (fun _ => 1) (fun _ => 1)
    (fun _ => 1) (fun a b => a * b) false 0 "boolq" ["mnli", "rte"]
    2 4 0 (OptState.mk 5 7) (by decide)

theorem cbpSum_split (f : Nat → Rat) (pos a b : Nat) :
    Finset.sum (Finset.range (a + b)) (fun i => f (pos + i)) =
      Finset.sum (Finset.range a) (fun i => f (pos + i)) +
      Finset.sum (Finset.range b) (fun i => f (pos + a + i)) := by
  induction b with
  | zero => simp
  | succ b ih =>
      have h1 : a + (b + 1) = (a + b) + 1 := by omega
      rw [h1, Finset.sum_range_succ, Finset.sum_range_succ, ih]
      have h2 : pos + (a + b) = pos + a + b := by omega
      rw [h2]
      ring

/-- The middle loop of `ReptileRunner.run_train_step`'s inner loop: one
round over `num_sampled_tasks` accumulation groups, each of `g` micro-batches
of the same sampled task. Returns the events, the loss contribution, and the
stream position after the round. -/
def reptileSampledTasks (cbp : Rat → Nat → Rat) (task_name : String)
    (losses : Nat → Rat) (g : Nat) : Nat → Nat → List Event × Rat × Nat
  | pos, 0 => ([], 0, pos)
  | pos, Nat.succ k =>
      let mb := microBatchLoop cbp task_name losses g pos g
      let rest := reptileSampledTasks cbp task_name losses g (pos + g) k
      (mb.1 ++ rest.1, mb.2 + rest.2.1, rest.2.2)

/-- The inner loop of `ReptileRunner.run_train_step`: `k` inner rounds, each
running the `num_sampled_tasks` groups and ending with
`optimizer_scheduler.inner_step()`. -/
def reptileInnerLoop (cbp : Rat → Nat → Rat) (task_name : String)
    (losses : Nat → Rat) (g nst : Nat) : Nat → Nat → List Event × Rat × Nat
  | pos, 0 => ([], 0, pos)
  | pos, Nat.succ k =>
      let grp := reptileSampledTasks cbp task_name losses g pos nst
      let rest := reptileInnerLoop cbp task_name losses g nst grp.2.2 k
      (grp.1 ++ Event.innerStep :: rest.1, grp.2.1 + rest.2.1, rest.2.2)

/-- Method `ReptileRunner.run_train_step`: sample one task, call
`optimizer_scheduler.inner_begin()`, run `inner_steps` inner rounds (each
closing with `inner_step()`), call `inner_end()`, apply exactly one outer
optimizer step and clear gradients, advance the `TrainState`, and log the
accumulated loss divided by `gradient_accumulation_steps`, then by
`num_sampled_tasks`, then by `inner_steps`. -/
def reptile_run_train_step (cbp : Rat → Nat → Rat) (task_name : String)
    (g inner_steps num_sampled_tasks : Nat) (losses : Nat → Rat) (pos : Nat)
    (ts : TrainState) : Option (List Event × TrainState) :=
  match ts.step task_name with
  | none => none
  | some ts' =>
      let inner := reptileInnerLoop cbp task_name losses g num_sampled_tasks
        pos inner_steps
      some (Event.samplePop task_name :: Event.innerBegin :: inner.1 ++
        [Event.innerEnd, Event.optStep, Event.zeroGrad,
         Event.logLossTrain task_name
           ((lookupTask ts'.task_steps task_name).getD 0) ts'.global_steps
           (inner.2.1 / (g : Rat) / (num_sampled_tasks : Rat) / (inner_steps : Rat))],
        ts')

theorem ev_shape_of_pb (e : Event)
    (h : isPullEv e = true ∨ isBackpropEv e = true) :
    isInnerStepEv e = false ∧ isOptStepEv e = false ∧
      e ≠ Event.innerBegin ∧ e ≠ Event.innerEnd := by
  rcases h with h | h <;>
    cases e <;> simp_all [isPullEv, isBackpropEv, isInnerStepEv, isOptStepEv]

theorem reptileSampledTasks_spec (cbp : Rat → Nat → Rat) (task_name : String)
    (losses : Nat → Rat) (g pos k : Nat) :
    (reptileSampledTasks cbp task_name losses g pos k).2.2 = pos + k * g ∧
    (reptileSampledTasks cbp task_name losses g pos k).2.1 =
      Finset.sum (Finset.range (k * g)) (fun i => cbp (losses (pos + i)) g) ∧
    (∀ e ∈ (reptileSampledTasks cbp task_name losses g pos k).1,
      isPullEv e = true ∨ isBackpropEv e = true) := by
  induction k generalizing pos with
  | zero => simp [reptileSampledTasks]
  | succ k ih =>
      obtain ⟨hpos, hsum, hev⟩ := ih (pos + g)
      refine ⟨?_, ?_, ?_⟩
      · simp only [reptileSampledTasks, hpos]
        rw [Nat.succ_mul]
        ring
      · simp only [reptileSampledTasks, hsum, microBatchLoop_sum]
        have hmul : Nat.succ k * g = g + k * g := by
          rw [Nat.succ_mul]
          ring
        rw [hmul]
        exact (cbpSum_split (fun x => cbp (losses x) g) pos g (k * g)).symm
      · intro e he
        simp only [reptileSampledTasks, List.mem_append] at he
        rcases he with h | h
        · exact (microBatchLoop_shape cbp task_name losses g pos g).2.2.1 e h
        · exact hev e h

theorem reptileInnerLoop_spec (cbp : Rat → Nat → Rat) (task_name : String)
    (losses : Nat → Rat) (g nst pos k : Nat) :
    (reptileInnerLoop cbp task_name losses g nst pos k).2.1 =
      Finset.sum (Finset.range (k * (nst * g)))
        (fun i => cbp (losses (pos + i)) g) ∧
    (reptileInnerLoop cbp task_name losses g nst pos k).1.countP isInnerStepEv = k ∧
    (reptileInnerLoop cbp task_name losses g nst pos k).1.countP isOptStepEv = 0 ∧
    Event.innerBegin ∉ (reptileInnerLoop cbp task_name losses g nst pos k).1 ∧
    Event.innerEnd ∉ (reptileInnerLoop cbp task_name losses g nst pos k).1 := by
  induction k generalizing pos with
  | zero => simp [reptileInnerLoop]
  | succ k ih =>
      obtain ⟨hgpos, hgsum, hgev⟩ := reptileSampledTasks_spec cbp task_name losses g pos nst
      obtain ⟨ihsum, ihis, ihos, ihib, ihie⟩ :=
        ih (reptileSampledTasks cbp task_name losses g pos nst).2.2
      have hgis : (reptileSampledTasks cbp task_name losses g pos nst).1.countP
          isInnerStepEv = 0 :=
        List.countP_eq_zero.mpr (fun e he => by
          simp [(ev_shape_of_pb e (hgev e he)).1])
      have hgos : (reptileSampledTasks cbp task_name losses g pos nst).1.countP
          isOptStepEv = 0 :=
        List.countP_eq_zero.mpr (fun e he => by
          simp [(ev_shape_of_pb e (hgev e he)).2.1])
      refine ⟨?_, ?_, ?_, ?_, ?_⟩
      · rw [hgpos] at ihsum
        simp only [reptileInnerLoop]
        rw [hgpos, hgsum, ihsum]
        have hmul : Nat.succ k * (nst * g) = nst * g + k * (nst * g) := by
          rw [Nat.succ_mul]
          ring
        rw [hmul]
        exact (cbpSum_split (fun x => cbp (losses x) g) pos (nst * g)
          (k * (nst * g))).symm
      · simp [reptileInnerLoop, List.countP_append, List.countP_cons,
          isInnerStepEv, hgis, ihis]
      · simp [reptileInnerLoop, List.countP_append, List.countP_cons,
          isOptStepEv, hgos, ihos]
      · simp only [reptileInnerLoop, List.mem_append, List.mem_cons]
        rintro (h | h | h)
        · exact absurd rfl (ev_shape_of_pb _ (hgev _ h)).2.2.1
        · exact Event.noConfusion h
        · exact ihib h
      · simp only [reptileInnerLoop, List.mem_append, List.mem_cons]
        rintro (h | h | h)
        · exact absurd rfl (ev_shape_of_pb _ (hgev _ h)).2.2.2
        · exact Event.noConfusion h
        · exact ihie h

/-- C8: one Reptile training step brackets its inner loop with `inner_begin`
before and `inner_end` after, performs `inner_step` exactly once per inner
round (and never inside a round), applies exactly one outer optimizer step,
which comes after `inner_end`, and logs the accumulated loss sum divided by
`gradient_accumulation_steps × num_sampled_tasks × inner_steps`. -/
theorem reptile_run_train_step_spec (cbp : Rat → Nat → Rat)
    (task_name : String) (g inner_steps num_sampled_tasks : Nat)
    (losses : Nat → Rat) (pos : Nat) (ts : TrainState)
    (htrack : ts.tracked task_name = true) :
    ∃ innerTrace ts',
      reptile_run_train_step cbp task_name g inner_steps num_sampled_tasks
        losses pos ts =
        some (Event.samplePop task_name :: Event.innerBegin :: innerTrace ++
          [Event.innerEnd, Event.optStep, Event.zeroGrad,
           Event.logLossTrain task_name
             ((lookupTask ts.task_steps task_name).getD 0 + 1)
             (ts.global_steps + 1)
             (Finset.sum (Finset.range (inner_steps * (num_sampled_tasks * g)))
               (fun i => cbp (losses (pos + i)) g) /
              ((g * num_sampled_tasks * inner_steps : Nat) : Rat))], ts') ∧
      innerTrace.countP isInnerStepEv = inner_steps ∧
      innerTrace.countP isOptStepEv = 0 ∧
      Event.innerBegin ∉ innerTrace ∧
      Event.innerEnd ∉ innerTrace ∧
      (Event.samplePop task_name :: Event.innerBegin :: innerTrace ++
        [Event.innerEnd, Event.optStep, Event.zeroGrad,
         Event.logLossTrain task_name
           ((lookupTask ts.task_steps task_name).getD 0 + 1)
           (ts.global_steps + 1)
           (Finset.sum (Finset.range (inner_steps * (num_sampled_tasks * g)))
             (fun i => cbp (losses (pos + i)) g) /
            ((g * num_sampled_tasks * inner_steps : Nat) : Rat))]).countP
        isOptStepEv = 1 ∧
      ts'.global_steps = ts.global_steps + 1 := by
  obtain ⟨v, ts', hv, hstep, hglob, hlook, _⟩ :=
    TrainState.step_tracked_spec ts task_name htrack
  obtain ⟨hsum, his, hos, hib, hie⟩ :=
    reptileInnerLoop_spec cbp task_name losses g num_sampled_tasks pos inner_steps
  have hdiv : (reptileInnerLoop cbp task_name losses g num_sampled_tasks
        pos inner_steps).2.1 / (g : Rat) / (num_sampled_tasks : Rat) /
        (inner_steps : Rat) =
      Finset.sum (Finset.range (inner_steps * (num_sampled_tasks * g)))
        (fun i => cbp (losses (pos + i)) g) /
      ((g * num_sampled_tasks * inner_steps : Nat) : Rat) := by
    rw [hsum, div_div, div_div]
    push_cast
    ring
  refine ⟨(reptileInnerLoop cbp task_name losses g num_sampled_tasks pos
      inner_steps).1, ts', ?_, his, hos, hib, hie, ?_, hglob⟩
  · simp only [reptile_run_train_step, hstep, hdiv, hlook, hglob, hv]
    simp
  · simp [List.countP_cons, List.countP_append, isOptStepEv, hos]

/-- Witness for C8: two inner rounds over one sampled task with
accumulation 1. -/
theorem reptile_run_train_step_spec_witness :
    (TrainState.from_task_name_list ["mnli"]).tracked "mnli" = true ∧
    ∃ innerTrace ts',
      (∃ rest,
        reptile_run_train_step (fun l _ => l) "mnli" 1 2 1 (fun _ => 1) 0
          (TrainState.from_task_name_list ["mnli"]) =
          some (Event.samplePop "mnli" :: Event.innerBegin :: innerTrace ++ rest, ts')) ∧
      innerTrace.countP isInnerStepEv = 2 ∧
      ts'.global_steps = 1 := by
  have h := reptile_run_train_step_spec (fun l _ => l) "mnli" 1 2 1 (fun _ => 1) 0
    (TrainState.from_task_name_list ["mnli"]) (by decide)
  obtain ⟨innerTrace, ts', heq, his, _, _, _, _, hglob⟩ := h
  exact ⟨by decide, innerTrace, ts', ⟨_, heq⟩, his, hglob⟩

end Jiant
